import Mathlib

/-!
# Verification of the b.NanoAmP pipeline assembly and resolution engine

Shallow embedding of the core of `controller.py` / `model.py`:
the pipeline assembler (`_setup_pipeline`), the folder source
(`_use_folder` / `_fastq_folder_iter`), the conda environment
resolver (`get_conda_setup`, `_get_conda_envs`, `_get_conda_packages`),
the model-identifier codec, and `filter_models`.
-/

/-! ## Assemblers and the step catalog

`model.get_assemblers` returns the fixed list `["Flye", "Raven", "Miniasm"]`.
The step classes are imported from the `PipelineSteps` module; each
constructor carries exactly the arguments used at the construction sites
in `_setup_pipeline`.
-/

inductive Assembler where
  | Flye
  | Raven
  | Miniasm
deriving DecidableEq, Repr

/-- `model.get_assemblers()`: the fixed assembler enumeration order. -/
def get_assemblers : List Assembler := [Assembler.Flye, Assembler.Raven, Assembler.Miniasm]

/-- The step catalog: one constructor per step class constructed in
`_setup_pipeline`, carrying the constructor arguments from the call sites. -/
inductive Step where
  | DuplexStep (threads : Int)
  | FilterStep (min_len : Int) (bases : Int)
  | CleanDuplexStep
  | AssemblyStep (threads : Int) (assembler : Assembler)
  | RaconPolishingStep (threads : Int)
  | MedakaPolishingStep (threads : Int) (assembler : Assembler)
      (medaka_mod : String) (is_racon : Bool)
  | CleanAssemblyStep (assembler : Assembler) (is_racon : Bool)
  | CleanFilterStep
  | FinalCleanStep
deriving DecidableEq, Repr

/-- The configuration values read from the GUI by `_setup_pipeline`
(`threads`, `keep_intermediate`, `genome_size`, `coverage`,
`filtlong_minlen`, `medaka_manumodel`, `racon_skip`, and the
per-assembler `use_{asm}` flags). Real-valued GUI inputs are modelled
as rationals. -/
structure Config where
  threads : Int
  keep_intermediate : Bool
  genome_size : ℚ
  coverage : ℚ
  min_len : Int
  medaka_mod : String
  racon_skip : Bool
  use : Assembler → Bool

/-- Python's `int(q)`: truncation toward zero. -/
def pyInt (q : ℚ) : Int := q.num.tdiv q.den

/-- `controller._setup_pipeline`, translated statement by statement;
the imperative list of `steps.append` calls becomes a concatenation,
the `for assembler in model.get_assemblers()` loop a `List.bind`. -/
def setup_pipeline (cfg : Config) : List Step :=
  let bases : Int := pyInt (cfg.genome_size * 1000000 * cfg.coverage)
  let is_racon : Bool := !cfg.racon_skip
  let base : List Step :=
    [Step.DuplexStep cfg.threads, Step.FilterStep cfg.min_len bases]
    ++ (if !cfg.keep_intermediate then [Step.CleanDuplexStep] else [])
  let asmSteps : List Step :=
    get_assemblers.flatMap (fun assembler =>
      if cfg.use assembler then
        [Step.AssemblyStep cfg.threads assembler]
        ++ (if assembler = Assembler.Flye && is_racon then
              [Step.RaconPolishingStep cfg.threads] else [])
        ++ [Step.MedakaPolishingStep cfg.threads assembler cfg.medaka_mod is_racon]
        ++ (if !cfg.keep_intermediate then
              [Step.CleanAssemblyStep assembler is_racon] else [])
      else [])
  base ++ asmSteps
    ++ (if !cfg.keep_intermediate then [Step.CleanFilterStep, Step.FinalCleanStep] else [])

/-- The pipeline as described by the specification's §4.1 algorithm,
written from the spec's words: start with split/filter with
`max-bases = genome-size-Mb x 1,000,000 x target-coverage` rounded
down (floor); conditionally the split cleanup; then per selected
assembler, in the fixed order, the assemble / racon / medaka / cleanup
block; finally the filter cleanup and the final cleanup. -/
def assemble_spec (cfg : Config) : List Step :=
  let max_bases : Int := ⌊cfg.genome_size * 1000000 * cfg.coverage⌋
  let racon_enabled : Bool := !cfg.racon_skip
  [Step.DuplexStep cfg.threads, Step.FilterStep cfg.min_len max_bases]
  ++ (if cfg.keep_intermediate then [] else [Step.CleanDuplexStep])
  ++ get_assemblers.flatMap (fun a =>
      if cfg.use a then
        [Step.AssemblyStep cfg.threads a]
        ++ (if a = Assembler.Flye ∧ racon_enabled then
              [Step.RaconPolishingStep cfg.threads] else [])
        ++ [Step.MedakaPolishingStep cfg.threads a cfg.medaka_mod racon_enabled]
        ++ (if cfg.keep_intermediate then [] else
              [Step.CleanAssemblyStep a racon_enabled])
      else [])
  ++ (if cfg.keep_intermediate then [] else [Step.CleanFilterStep, Step.FinalCleanStep])

theorem pyInt_eq_floor (q : ℚ) (h : 0 ≤ q) : pyInt q = ⌊q⌋ := by
  rw [pyInt, Rat.floor_def, Int.tdiv_eq_ediv (Rat.num_nonneg.mpr h) (by positivity)]

example :
    setup_pipeline
      { threads := 4, keep_intermediate := false, genome_size := 5,
        coverage := 40, min_len := 1000, medaka_mod := "none",
        racon_skip := false, use := fun a => a = Assembler.Flye } =
    [Step.DuplexStep 4, Step.FilterStep 1000 200000000, Step.CleanDuplexStep,
     Step.AssemblyStep 4 Assembler.Flye, Step.RaconPolishingStep 4,
     Step.MedakaPolishingStep 4 Assembler.Flye "none" true,
     Step.CleanAssemblyStep Assembler.Flye true,
     Step.CleanFilterStep, Step.FinalCleanStep] := by
  norm_num [setup_pipeline, get_assemblers, pyInt]
  decide

/-! ## Step-kind predicates and the ordering invariant -/

def Step.isDuplex : Step → Bool
  | .DuplexStep _ => true
  | _ => false

def Step.isFilter : Step → Bool
  | .FilterStep _ _ => true
  | _ => false

def Step.isAssembly : Step → Bool
  | .AssemblyStep _ _ => true
  | _ => false

def Step.isRacon : Step → Bool
  | .RaconPolishingStep _ => true
  | _ => false

def Step.isMedaka : Step → Bool
  | .MedakaPolishingStep _ _ _ _ => true
  | _ => false

def Step.isCleanFilter : Step → Bool
  | .CleanFilterStep => true
  | _ => false

def Step.isFinalClean : Step → Bool
  | .FinalCleanStep => true
  | _ => false

/-- The four cleanup step variants (`CleanDuplexStep`, `CleanAssemblyStep`,
`CleanFilterStep`, `FinalCleanStep`). -/
def Step.isCleanup : Step → Bool
  | .CleanDuplexStep => true
  | .CleanAssemblyStep _ _ => true
  | .CleanFilterStep => true
  | .FinalCleanStep => true
  | _ => false

def isAssemblyOf (a : Assembler) : Step → Bool
  | .AssemblyStep _ b => b = a
  | _ => false

def isMedakaOf (a : Assembler) : Step → Bool
  | .MedakaPolishingStep _ b _ _ => b = a
  | _ => false

def isCleanAsmOf (a : Assembler) : Step → Bool
  | .CleanAssemblyStep b _ => b = a
  | _ => false

/-- Index of an assembler in the fixed enumeration order. -/
def aidx : Assembler → Nat
  | .Flye => 0
  | .Raven => 1
  | .Miniasm => 2

/-- A numeric rank compatible with the order in which `_setup_pipeline`
appends steps; the assembled list is strictly increasing in this rank. -/
def srank : Step → Nat
  | .DuplexStep _ => 0
  | .FilterStep _ _ => 1
  | .CleanDuplexStep => 2
  | .AssemblyStep _ a => 10 + 10 * aidx a
  | .RaconPolishingStep _ => 11
  | .MedakaPolishingStep _ a _ _ => 12 + 10 * aidx a
  | .CleanAssemblyStep a _ => 13 + 10 * aidx a
  | .CleanFilterStep => 100
  | .FinalCleanStep => 101

/-- `p`-steps all occur strictly before `q`-steps in `l`. -/
def before (l : List Step) (p q : Step → Bool) : Prop :=
  ∀ i j (hi : i < l.length) (hj : j < l.length),
    p (l.get ⟨i, hi⟩) = true → q (l.get ⟨j, hj⟩) = true → i < j

set_option maxHeartbeats 4000000 in
theorem setup_pipeline_sorted (cfg : Config) :
    (setup_pipeline cfg).Pairwise (fun x y => srank x < srank y) := by
  obtain ⟨t, k, gs, cov, ml, mm, rs, use⟩ := cfg
  dsimp only [setup_pipeline]
  generalize pyInt (gs * 1000000 * cov) = B
  cases k <;> cases rs <;>
    cases hF : use Assembler.Flye <;>
    cases hR : use Assembler.Raven <;>
    cases hM : use Assembler.Miniasm <;>
      simp [get_assemblers, hF, hR, hM, srank, aidx]

theorem before_of_sorted {l : List Step}
    (hs : l.Pairwise (fun x y => srank x < srank y)) {p q : Step → Bool}
    (hpq : ∀ x y, p x = true → q y = true → srank x < srank y) :
    before l p q := by
  intro i j hi hj hpi hqj
  rcases lt_trichotomy i j with h | h | h
  · exact h
  · subst h
    exact absurd (hpq _ _ hpi hqj) (lt_irrefl _)
  · have hlt := List.pairwise_iff_get.mp hs ⟨j, hj⟩ ⟨i, hi⟩ h
    exact absurd (hpq _ _ hpi hqj) (by omega)

set_option maxHeartbeats 4000000 in
theorem cleanFilter_mem_iff (cfg : Config) :
    Step.CleanFilterStep ∈ setup_pipeline cfg ↔ cfg.keep_intermediate = false := by
  obtain ⟨t, k, gs, cov, ml, mm, rs, use⟩ := cfg
  cases k <;> cases rs <;>
    cases hF : use Assembler.Flye <;>
    cases hR : use Assembler.Raven <;>
    cases hM : use Assembler.Miniasm <;>
      simp [setup_pipeline, get_assemblers, hF, hR, hM]

set_option maxHeartbeats 4000000 in
theorem finalClean_mem_iff (cfg : Config) :
    Step.FinalCleanStep ∈ setup_pipeline cfg ↔ cfg.keep_intermediate = false := by
  obtain ⟨t, k, gs, cov, ml, mm, rs, use⟩ := cfg
  cases k <;> cases rs <;>
    cases hF : use Assembler.Flye <;>
    cases hR : use Assembler.Raven <;>
    cases hM : use Assembler.Miniasm <;>
      simp [setup_pipeline, get_assemblers, hF, hR, hM]

/-! ## Claim C4: pipeline ordering invariant -/

set_option maxHeartbeats 4000000 in
/-- C4: in every assembled pipeline: split-reads precedes
filter-reads; filter-reads precedes every assemble step; each
assembler's assemble step precedes its medaka polish; Flye's assemble
step precedes racon polish; racon polish precedes every medaka polish;
each assembler's medaka polish precedes its assembler-specific cleanup;
racon polish precedes Flye's cleanup; the two global cleanup steps come
after every other step, with filter-cleanup before final-cleanup, and
both are present iff `keep_intermediate` is false. -/
theorem pipeline_order_invariant (cfg : Config) :
    before (setup_pipeline cfg) Step.isDuplex Step.isFilter ∧
    before (setup_pipeline cfg) Step.isFilter Step.isAssembly ∧
    (∀ a, before (setup_pipeline cfg) (isAssemblyOf a) (isMedakaOf a)) ∧
    before (setup_pipeline cfg) (isAssemblyOf Assembler.Flye) Step.isRacon ∧
    before (setup_pipeline cfg) Step.isRacon Step.isMedaka ∧
    (∀ a, before (setup_pipeline cfg) (isMedakaOf a) (isCleanAsmOf a)) ∧
    before (setup_pipeline cfg) Step.isRacon (isCleanAsmOf Assembler.Flye) ∧
    before (setup_pipeline cfg)
      (fun s => !(s.isCleanFilter || s.isFinalClean))
      (fun s => s.isCleanFilter || s.isFinalClean) ∧
    before (setup_pipeline cfg) Step.isCleanFilter Step.isFinalClean ∧
    (Step.CleanFilterStep ∈ setup_pipeline cfg ↔ cfg.keep_intermediate = false) ∧
    (Step.FinalCleanStep ∈ setup_pipeline cfg ↔ cfg.keep_intermediate = false) := by
  have hs := setup_pipeline_sorted cfg
  have h8 : before (setup_pipeline cfg)
      (fun s => !(s.isCleanFilter || s.isFinalClean))
      (fun s => s.isCleanFilter || s.isFinalClean) := by
    refine before_of_sorted hs ?_
    intro x y hx hy
    have hxlt : srank x < 100 := by
      cases x
      case AssemblyStep th b => cases b <;> simp [srank, aidx]
      case MedakaPolishingStep th b m r => cases b <;> simp [srank, aidx]
      case CleanAssemblyStep b r => cases b <;> simp [srank, aidx]
      case CleanFilterStep => simp [Step.isCleanFilter] at hx
      case FinalCleanStep => simp [Step.isFinalClean] at hx
      all_goals simp [srank]
    have hyge : 100 ≤ srank y := by
      cases y <;> simp_all [Step.isCleanFilter, Step.isFinalClean, srank]
    omega
  refine ⟨?_, ?_, fun a => ?_, ?_, ?_, fun a => ?_, ?_, h8, ?_,
    cleanFilter_mem_iff cfg, finalClean_mem_iff cfg⟩
  all_goals refine before_of_sorted hs ?_
  all_goals try cases a
  all_goals intro x y hx hy
  all_goals cases x <;> cases y <;>
    simp_all [Step.isDuplex, Step.isFilter, Step.isAssembly, Step.isRacon,
      Step.isMedaka, Step.isCleanFilter, Step.isFinalClean,
      isAssemblyOf, isMedakaOf, isCleanAsmOf, srank, aidx] <;>
    omega

/-- A concrete configuration (all assemblers on, cleanup on). -/
def cfgW : Config :=
  { threads := 4, keep_intermediate := false, genome_size := 5,
    coverage := 40, min_len := 1000, medaka_mod := "none",
    racon_skip := false, use := fun _ => true }

/-- Witness for C4 at a concrete configuration. -/
theorem pipeline_order_invariant_witness :
    before (setup_pipeline cfgW) Step.isDuplex Step.isFilter :=
  (pipeline_order_invariant cfgW).1

/-! ## Claim C5: keep-intermediate disables every cleanup step -/

set_option maxHeartbeats 1000000 in
/-- C5: with `keep_intermediate = true` the assembled pipeline
contains no cleanup-variant step at all. -/
theorem keep_intermediate_no_cleanup (cfg : Config)
    (h : cfg.keep_intermediate = true) :
    ∀ s ∈ setup_pipeline cfg, s.isCleanup = false := by
  obtain ⟨t, k, gs, cov, ml, mm, rs, use⟩ := cfg
  simp only at h
  subst h
  cases rs <;>
    cases hF : use Assembler.Flye <;>
    cases hR : use Assembler.Raven <;>
    cases hM : use Assembler.Miniasm <;>
      simp [setup_pipeline, get_assemblers, hF, hR, hM, Step.isCleanup]

/-- A concrete configuration with `keep_intermediate = true`. -/
def cfgK : Config :=
  { threads := 4, keep_intermediate := true, genome_size := 5,
    coverage := 40, min_len := 1000, medaka_mod := "none",
    racon_skip := false, use := fun _ => true }

/-- Witness for C5 at a concrete configuration. -/
theorem keep_intermediate_no_cleanup_witness :
    cfgK.keep_intermediate = true ∧ ∀ s ∈ setup_pipeline cfgK, s.isCleanup = false :=
  ⟨rfl, keep_intermediate_no_cleanup cfgK rfl⟩

/-! ## Claim C6: when racon polishing appears -/

set_option maxHeartbeats 4000000 in
/-- C6: a racon polishing step appears in the assembled pipeline
iff Flye is selected and `racon_skip` is false. -/
theorem racon_mem_iff (cfg : Config) :
    (∃ th, Step.RaconPolishingStep th ∈ setup_pipeline cfg) ↔
      (cfg.use Assembler.Flye = true ∧ cfg.racon_skip = false) := by
  obtain ⟨t, k, gs, cov, ml, mm, rs, use⟩ := cfg
  cases k <;> cases rs <;>
    cases hF : use Assembler.Flye <;>
    cases hR : use Assembler.Raven <;>
    cases hM : use Assembler.Miniasm <;>
      simp [setup_pipeline, get_assemblers, hF, hR, hM]

/-! ## Claim C1: the assembled pipeline is the spec's step list -/

set_option maxHeartbeats 4000000 in
/-- C1: for every configuration (with the nonnegative real-valued
inputs of the configuration surface), `_setup_pipeline` produces
exactly the step list of the spec's algorithm, with
`max-bases = floor(genome-size-Mb * 1000000 * target-coverage)`; and
with no assembler selected the pipeline still contains the
split/filter (+ cleanup) stages. -/
theorem pipeline_matches_spec (cfg : Config)
    (hg : 0 ≤ cfg.genome_size) (hc : 0 ≤ cfg.coverage) :
    setup_pipeline cfg = assemble_spec cfg ∧
    ((∀ a, cfg.use a = false) →
      Step.DuplexStep cfg.threads ∈ setup_pipeline cfg ∧
      Step.FilterStep cfg.min_len
        (pyInt (cfg.genome_size * 1000000 * cfg.coverage)) ∈ setup_pipeline cfg ∧
      (cfg.keep_intermediate = false → Step.CleanDuplexStep ∈ setup_pipeline cfg)) := by
  obtain ⟨t, k, gs, cov, ml, mm, rs, use⟩ := cfg
  simp only at hg hc
  have hb : pyInt (gs * 1000000 * cov) = ⌊gs * 1000000 * cov⌋ :=
    pyInt_eq_floor _ (mul_nonneg (mul_nonneg hg (by norm_num)) hc)
  constructor
  · cases k <;> cases rs <;>
      cases hF : use Assembler.Flye <;>
      cases hR : use Assembler.Raven <;>
      cases hM : use Assembler.Miniasm <;>
        simp [setup_pipeline, assemble_spec, get_assemblers, hF, hR, hM, hb]
  · intro hnone
    cases k <;>
      simp [setup_pipeline, get_assemblers, hnone Assembler.Flye,
        hnone Assembler.Raven, hnone Assembler.Miniasm]

/-- Witness for C1 at a concrete configuration. -/
theorem pipeline_matches_spec_witness :
    (0 : ℚ) ≤ cfgW.genome_size ∧ (0 : ℚ) ≤ cfgW.coverage ∧
    setup_pipeline cfgW = assemble_spec cfgW :=
  ⟨by norm_num [cfgW], by norm_num [cfgW],
    (pipeline_matches_spec cfgW (by norm_num [cfgW]) (by norm_num [cfgW])).1⟩

/-! ## Python strings and the folder source

Python strings are embedded as `List Char`; `str.startswith`,
`pathlib.Path.stem` and `pathlib.Path.suffixes` are implemented over
them following CPython. -/

abbrev PyStr := List Char

/-- Python `s.startswith(p)`. -/
def startswith : PyStr → PyStr → Bool
  | _, [] => true
  | [], _ :: _ => false
  | c :: s, d :: p => c = d && startswith s p

/-- Index of the last `'.'` in the string (`str.rfind('.')`, with
`none` for "not found"). -/
def rfindDot : PyStr → Option Nat
  | [] => none
  | c :: rest =>
    match rfindDot rest with
    | some i => some (i + 1)
    | none => if c = '.' then some 0 else none

/-- `pathlib.PurePath.stem`: the name without its last suffix
(the final component before the last dot, when that dot is neither the
first nor the last character). -/
def stem (name : PyStr) : PyStr :=
  match rfindDot name with
  | none => name
  | some i => if 0 < i ∧ i < name.length - 1 then name.take i else name

def lstripDot : PyStr → PyStr
  | '.' :: rest => lstripDot rest
  | s => s

def splitOnDot : PyStr → List PyStr
  | [] => [[]]
  | c :: rest =>
    if c = '.' then [] :: splitOnDot rest
    else
      match splitOnDot rest with
      | h :: t => (c :: h) :: t
      | [] => [[c]]

/-- `pathlib.PurePath.suffixes`: the list of dot-suffixes of the name. -/
def suffixes (name : PyStr) : List PyStr :=
  if name.getLast? = some '.' then []
  else ((splitOnDot (lstripDot name)).drop 1).map (fun s => '.' :: s)

/-- A directory entry: a plain file or a directory with its children
(the result of `Path.iterdir`). -/
inductive FS where
  | file (nm : PyStr)
  | dir (nm : PyStr) (children : List FS)

def FS.nm : FS → PyStr
  | .file n => n
  | .dir n _ => n

def FS.isDir : FS → Bool
  | .dir _ _ => true
  | _ => false

def FS.isFile : FS → Bool
  | .file _ => true
  | _ => false

def FS.childrenL : FS → List FS
  | .dir _ cs => cs
  | .file _ => []

/-- `controller._has_fastq`: some entry of the folder is a file with
`".fastq"` among its suffixes. -/
def has_fastq (folder : FS) : Bool :=
  folder.childrenL.any (fun e => e.isFile && (suffixes e.nm).contains ".fastq".data)

/-- `controller._use_folder` (the `skip_unclassified` GUI value is a
parameter): keep a candidate iff it is a directory containing fastq
files whose stem starts with neither reserved prefix, and, when
unclassified folders are skipped, not with "unclassified" either. -/
def use_folder (skip_unclassified : Bool) (folder : FS) : Bool :=
  if !folder.isDir || !has_fastq folder then false
  else if startswith (stem folder.nm) "original".data
       || startswith (stem folder.nm) "assemblies".data then false
  else if skip_unclassified then !(startswith (stem folder.nm) "unclassified".data)
  else true

/-- `controller._fastq_folder_iter`: the qualifying children in scan
order, then the root itself when it directly contains fastq files. -/
def fastq_folder_iter (skip_unclassified : Bool) (root : FS) : List FS :=
  root.childrenL.filter (use_folder skip_unclassified)
  ++ (if has_fastq root then [root] else [])

example :
    suffixes "reads.fastq.gz".data = [".fastq".data, ".gz".data] := by decide

example : stem "original_backup".data = "original_backup".data := by decide

example :
    use_folder false (FS.dir "original_backup".data [FS.file "a.fastq".data]) = false := by
  decide

theorem startswith_take (p n : PyStr) (i : Nat)
    (h : startswith n p = true) (hi : p.length ≤ i) :
    startswith (n.take i) p = true := by
  induction p generalizing n i with
  | nil =>
    cases n.take i with
    | nil => rfl
    | cons c s => rfl
  | cons d p ih =>
    cases n with
    | nil => simp [startswith] at h
    | cons c n =>
      cases i with
      | zero => simp at hi
      | succ i =>
        simp only [startswith, Bool.and_eq_true, decide_eq_true_eq] at h
        simp only [List.take_succ_cons, startswith, Bool.and_eq_true,
          decide_eq_true_eq]
        exact ⟨h.1, ih n i h.2 (by simpa using hi)⟩

theorem startswith_getElem (p n : PyStr) (j : Nat)
    (h : startswith n p = true) (hj : j < p.length) :
    n[j]? = p[j]? := by
  induction p generalizing n j with
  | nil => simp at hj
  | cons d p ih =>
    cases n with
    | nil => simp [startswith] at h
    | cons c n =>
      simp only [startswith, Bool.and_eq_true, decide_eq_true_eq] at h
      cases j with
      | zero => simp [h.1]
      | succ j =>
        simpa using ih n j h.2 (by simpa using hj)

theorem rfindDot_dot (n : PyStr) (i : Nat) (h : rfindDot n = some i) :
    n[i]? = some '.' := by
  induction n generalizing i with
  | nil => simp [rfindDot] at h
  | cons c n ih =>
    simp only [rfindDot] at h
    cases hr : rfindDot n with
    | some k =>
      rw [hr] at h
      simp only [Option.some.injEq] at h
      subst h
      simpa using ih k hr
    | none =>
      rw [hr] at h
      by_cases hc : c = '.'
      · subst hc
        have hi : i = 0 := by
          simp at h
          omega
        subst hi
        simp
      · simp [hc] at h

/-- Since the reserved name tokens contain no dot, a name starting with
one also has its `stem` starting with it. -/
theorem startswith_stem (p n : PyStr) (hp : '.' ∉ p)
    (h : startswith n p = true) : startswith (stem n) p = true := by
  unfold stem
  cases hr : rfindDot n with
  | none => exact h
  | some i =>
    dsimp only
    by_cases hcond : 0 < i ∧ i < n.length - 1
    · rw [if_pos hcond]
      by_cases hpi : p.length ≤ i
      · exact startswith_take p n i h hpi
      · exfalso
        have hget := startswith_getElem p n i h (by omega)
        have hdot := rfindDot_dot n i hr
        rw [hget] at hdot
        exact hp (List.getElem?_mem hdot)
    · rw [if_neg hcond]
      exact h

theorem self_not_mem_childrenL (root : FS) : root ∉ root.childrenL := by
  cases root with
  | file n => simp [FS.childrenL]
  | dir n cs =>
    simp only [FS.childrenL]
    intro hmem
    have h1 := List.sizeOf_lt_of_mem hmem
    simp only [FS.dir.sizeOf_spec] at h1
    omega

theorem use_folder_of_reserved (skip : Bool) (e : FS)
    (h : startswith e.nm "original".data = true ∨
         startswith e.nm "assemblies".data = true) :
    use_folder skip e = false := by
  rcases h with h | h
  · have hs := startswith_stem _ _ (by decide) h
    simp [use_folder, hs]
  · have hs := startswith_stem _ _ (by decide) h
    simp [use_folder, hs]

theorem use_folder_of_unclassified (e : FS)
    (h : startswith e.nm "unclassified".data = true) :
    use_folder true e = false := by
  have hs := startswith_stem _ _ (by decide) h
  simp [use_folder, hs]

/-- C7: the folder source never yields a child whose name starts with a
reserved prefix (in particular one named exactly `original_backup`,
fastq files or not), with skip-unclassified set it never yields a child
whose name starts with `unclassified`, and it yields the root itself —
exempt from those exclusions — iff the root directly contains a
qualifying read file, after the qualifying children. -/
theorem folder_source_rules (skip : Bool) (root : FS) :
    (∀ e ∈ root.childrenL,
        (startswith e.nm "original".data = true ∨
         startswith e.nm "assemblies".data = true) →
        e ∉ fastq_folder_iter skip root) ∧
    (∀ e ∈ root.childrenL,
        startswith e.nm "unclassified".data = true →
        e ∉ fastq_folder_iter true root) ∧
    (root ∈ fastq_folder_iter skip root ↔ has_fastq root = true) ∧
    (has_fastq root = true →
      fastq_folder_iter skip root =
        root.childrenL.filter (use_folder skip) ++ [root]) := by
  refine ⟨?_, ?_, ⟨?_, ?_⟩, ?_⟩
  · intro e he hres hmem
    rcases List.mem_append.mp hmem with hm | hm
    · have hu := (List.mem_filter.mp hm).2
      rw [use_folder_of_reserved skip e hres] at hu
      exact absurd hu (by simp)
    · by_cases hf : has_fastq root = true
      · simp [hf] at hm
        subst hm
        exact self_not_mem_childrenL e he
      · simp [hf] at hm
  · intro e he hres hmem
    rcases List.mem_append.mp hmem with hm | hm
    · have hu := (List.mem_filter.mp hm).2
      rw [use_folder_of_unclassified e hres] at hu
      exact absurd hu (by simp)
    · by_cases hf : has_fastq root = true
      · simp [hf] at hm
        subst hm
        exact self_not_mem_childrenL e he
      · simp [hf] at hm
  · intro hmem
    rcases List.mem_append.mp hmem with hm | hm
    · exact absurd (List.mem_filter.mp hm).1 (self_not_mem_childrenL root)
    · by_cases hf : has_fastq root = true
      · exact hf
      · simp [hf] at hm
  · intro hf
    exact List.mem_append.mpr (Or.inr (by simp [hf]))
  · intro hf
    simp [fastq_folder_iter, hf]

/-- A concrete run folder with a backup child, an unclassified child, a
barcode child and a fastq file at top level. -/
def wRoot : FS :=
  FS.dir "data".data
    [FS.dir "original_backup".data [FS.file "a.fastq".data],
     FS.dir "unclassified_1".data [FS.file "b.fastq".data],
     FS.dir "barcode01".data [FS.file "c.fastq".data],
     FS.file "root.fastq".data]

/-- Witness for C7 on the concrete folder tree. -/
theorem folder_source_rules_witness :
    FS.dir "original_backup".data [FS.file "a.fastq".data]
        ∉ fastq_folder_iter false wRoot ∧
    FS.dir "unclassified_1".data [FS.file "b.fastq".data]
        ∉ fastq_folder_iter true wRoot ∧
    wRoot ∈ fastq_folder_iter false wRoot :=
  ⟨(folder_source_rules false wRoot).1 _ (List.Mem.head _) (Or.inl (by decide)),
   (folder_source_rules false wRoot).2.1 _ (List.Mem.tail _ (List.Mem.head _)) (by decide),
   ((folder_source_rules false wRoot).2.2.1).mpr (by decide)⟩

/-! ## Conda environment resolution

`model.BINARIES`, `controller.get_conda_setup` and the two registry
queries. Version strings are represented by their dot-separated
numeral lists; `packaging.version.parse` normalizes away trailing zero
components (`vparse`), and `>` on parsed versions is strict
lexicographic comparison (`vlt`). Python dicts are embedded as
association lists with insertion-order update (`aset`) and
lookup (`alookup`). -/

/-- `model.BINARIES`: the required tool set. -/
def BINARIES : List PyStr :=
  ["duplex-tools".data, "filtlong".data, "flye".data, "raven-assembler".data,
   "miniasm".data, "minipolish".data, "minimap2".data, "racon".data,
   "medaka".data]

/-- `packaging.version.parse` on a release version: trailing zero
components are not significant. -/
def vparse (v : List Nat) : List Nat := (v.reverse.dropWhile (· = 0)).reverse

/-- Strict lexicographic order on parsed versions
(`version.parse a < version.parse b`). -/
def vlt : List Nat → List Nat → Bool
  | [], [] => false
  | [], _ :: _ => true
  | _ :: _, [] => false
  | a :: as, b :: bs => a < b || (a = b && vlt as bs)

theorem vlt_irrefl (a : List Nat) : vlt a a = false := by
  induction a with
  | nil => rfl
  | cons x xs ih => simp [vlt, ih]

theorem vlt_asymm (a : List Nat) : ∀ b, vlt a b = true → vlt b a = false := by
  induction a with
  | nil =>
    intro b h
    cases b with
    | nil => simp [vlt] at h
    | cons y ys => simp [vlt]
  | cons x xs ih =>
    intro b h
    cases b with
    | nil => simp [vlt] at h
    | cons y ys =>
      simp only [vlt, Bool.or_eq_true, Bool.and_eq_true, decide_eq_true_eq] at h
      rcases h with h | ⟨heq, hxs⟩
      · have h1 : ¬ y < x := by omega
        have h2 : ¬ y = x := by omega
        simp [vlt, h1, h2]
      · subst heq
        simp [vlt, ih ys hxs]

theorem vlt_trans (a : List Nat) :
    ∀ b c, vlt a b = true → vlt b c = true → vlt a c = true := by
  induction a with
  | nil =>
    intro b c hab hbc
    cases c with
    | nil =>
      cases b with
      | nil => simp [vlt] at hab
      | cons y ys => simp [vlt] at hbc
    | cons z zs => simp [vlt]
  | cons x xs ih =>
    intro b c hab hbc
    cases b with
    | nil => simp [vlt] at hab
    | cons y ys =>
      cases c with
      | nil => simp [vlt] at hbc
      | cons z zs =>
        simp only [vlt, Bool.or_eq_true, Bool.and_eq_true,
          decide_eq_true_eq] at hab hbc ⊢
        rcases hab with h1 | ⟨he1, h1⟩ <;> rcases hbc with h2 | ⟨he2, h2⟩
        · exact Or.inl (by omega)
        · exact Or.inl (by omega)
        · exact Or.inl (by omega)
        · exact Or.inr ⟨by omega, ih ys zs h1 h2⟩

theorem vlt_conn (a : List Nat) :
    ∀ b, vlt a b = false → vlt b a = false → a = b := by
  induction a with
  | nil =>
    intro b hab hba
    cases b with
    | nil => rfl
    | cons y ys => simp [vlt] at hab
  | cons x xs ih =>
    intro b hab hba
    cases b with
    | nil => simp [vlt] at hba
    | cons y ys =>
      simp only [vlt, Bool.or_eq_false_iff, Bool.and_eq_false_iff,
        decide_eq_false_iff_not, decide_eq_true_eq] at hab hba
      have hxy : x = y := by omega
      subst hxy
      rcases hab.2 with h | h
      · omega
      · rcases hba.2 with h' | h'
        · omega
        · rw [ih ys h h']

/-- Python dict lookup (`d[k]` / `k in d`). -/
def alookup {α : Type} : List (PyStr × α) → PyStr → Option α
  | [], _ => none
  | p :: rest, k => if p.1 = k then some p.2 else alookup rest k

/-- Python dict update `d[k] = v`: replace in place, else append. -/
def aset {α : Type} : List (PyStr × α) → PyStr → α → List (PyStr × α)
  | [], k, v => [(k, v)]
  | p :: rest, k, v => if p.1 = k then (k, v) :: rest else p :: aset rest k v

theorem alookup_aset_self {α : Type} (l : List (PyStr × α)) (k : PyStr) (v : α) :
    alookup (aset l k v) k = some v := by
  induction l with
  | nil => simp [aset, alookup]
  | cons p rest ih =>
    by_cases h : p.1 = k
    · simp [aset, h, alookup]
    · simp [aset, h, alookup, ih]

theorem alookup_aset_ne {α : Type} (l : List (PyStr × α)) (k k' : PyStr) (v : α)
    (h : k' ≠ k) : alookup (aset l k v) k' = alookup l k' := by
  induction l with
  | nil => simp [aset, alookup, h, Ne.symm h]
  | cons p rest ih =>
    by_cases hp : p.1 = k
    · simp [aset, hp, alookup, h, Ne.symm h]
    · simp [aset, hp, alookup, ih]

/-- The per-package body of the inner loop of `get_conda_setup`:
record the package in `pkgs_in_env` and overwrite the running pick when
the current pick's version is not strictly greater, or unconditionally
for a privileged `nanoamp_`-prefixed environment. -/
def pkgStep (env_name pref : PyStr)
    (acc : List PyStr × List (PyStr × PyStr × List Nat))
    (p : PyStr × List Nat) : List PyStr × List (PyStr × PyStr × List Nat) :=
  if p.1 ∈ BINARIES then
    let overwrite :=
      (match alookup acc.2 p.1 with
       | some pv => !(vlt (vparse p.2) (vparse pv.2))
       | none => true) || startswith env_name "nanoamp_".data
    (acc.1 ++ [p.1],
     if overwrite then aset acc.2 p.1 (pref, p.2) else acc.2)
  else acc

/-- The per-environment body of the outer loop of `get_conda_setup`. -/
def envStep (pkgsOf : PyStr → List (PyStr × List Nat))
    (acc : List (PyStr × List PyStr) × List (PyStr × PyStr × List Nat))
    (e : PyStr × PyStr) :
    List (PyStr × List PyStr) × List (PyStr × PyStr × List Nat) :=
  if e.1 = [] then acc
  else
    let r := (pkgsOf e.1).foldl (pkgStep e.1 e.2) ([], acc.2)
    (if r.1 ≠ [] then aset acc.1 e.1 r.1 else acc.1, r.2)

/-- `controller.get_conda_setup`, with the two collaborator queries
supplied as the environment list (name, prefix) and the per-environment
package list (name, version). Returns the per-environment report and
the resolved tool table `prefs`. -/
def get_conda_setup (envsList : List (PyStr × PyStr))
    (pkgsOf : PyStr → List (PyStr × List Nat)) :
    List (PyStr × List PyStr) × List (PyStr × PyStr × List Nat) :=
  envsList.foldl (envStep pkgsOf) ([], [])

/-! ## Claim C2: the privileged-prefix override across enumeration orders -/

/-- Environment E1 with flye 1.0.0. -/
def envE1 : PyStr × PyStr := ("enva".data, "/p1".data)

/-- Environment E2 with flye 2.0.0. -/
def envE2 : PyStr × PyStr := ("envb".data, "/p2".data)

/-- Privileged environment E3 (`nanoamp_`-prefixed) with flye 1.5.0. -/
def envE3 : PyStr × PyStr := ("nanoamp_x".data, "/p3".data)

/-- Package tables of the three environments of C2. -/
def pkgsOfW : PyStr → List (PyStr × List Nat) := fun n =>
  if n = "enva".data then [("flye".data, [1, 0, 0])]
  else if n = "envb".data then [("flye".data, [2, 0, 0])]
  else if n = "nanoamp_x".data then [("flye".data, [1, 5, 0])]
  else []

/-- C2 counterexample: in the enumeration order E1, E3, E2 the resolved
pick for flye is E2's 2.0.0, not the privileged E3's 1.5.0 — the claim
fails for this order. -/
theorem privileged_override_counterexample :
    alookup (get_conda_setup [envE1, envE3, envE2] pkgsOfW).2 "flye".data =
      some ("/p2".data, [2, 0, 0]) ∧
    alookup (get_conda_setup [envE1, envE3, envE2] pkgsOfW).2 "flye".data ≠
      some ("/p3".data, [1, 5, 0]) := by
  constructor
  · decide
  · decide

/-- C2 as amended: the privileged override beats only environments
processed before it; across the six enumeration orders of E1, E2, E3
the resolved pick for flye is E3's 1.5.0 exactly when E3 is processed
after E2, and E2's strictly higher 2.0.0 otherwise. -/
theorem privileged_override_orders :
    alookup (get_conda_setup [envE1, envE2, envE3] pkgsOfW).2 "flye".data =
      some ("/p3".data, [1, 5, 0]) ∧
    alookup (get_conda_setup [envE2, envE1, envE3] pkgsOfW).2 "flye".data =
      some ("/p3".data, [1, 5, 0]) ∧
    alookup (get_conda_setup [envE2, envE3, envE1] pkgsOfW).2 "flye".data =
      some ("/p3".data, [1, 5, 0]) ∧
    alookup (get_conda_setup [envE1, envE3, envE2] pkgsOfW).2 "flye".data =
      some ("/p2".data, [2, 0, 0]) ∧
    alookup (get_conda_setup [envE3, envE1, envE2] pkgsOfW).2 "flye".data =
      some ("/p2".data, [2, 0, 0]) ∧
    alookup (get_conda_setup [envE3, envE2, envE1] pkgsOfW).2 "flye".data =
      some ("/p2".data, [2, 0, 0]) := by
  refine ⟨?_, ?_, ?_, ?_, ?_, ?_⟩ <;> decide

/-! ## Claim C8: registry query failure -/

/-- The outcome of a `subprocess.run` call: exit code and the captured
output streams. -/
structure ProcResult where
  returncode : Int
  stdout : PyStr
  stderr : PyStr

/-- Python `str.split()` word characters. -/
def isSpace (c : Char) : Bool := c = ' ' || c = '\t' || c = '\n' || c = '\r'

/-- Python `str.split()` (split on whitespace runs, dropping empties). -/
def pySplit (s : PyStr) : List PyStr :=
  (s.foldr
    (fun c acc =>
      if isSpace c then [] :: acc
      else
        match acc with
        | [] => [[c]]
        | h :: t => (c :: h) :: t)
    []).filter (fun w => w ≠ [])

/-- Python `str.splitlines()`. -/
def pySplitlines : PyStr → List PyStr
  | [] => []
  | c :: s =>
    if c = '\n' then [] :: pySplitlines s
    else
      match pySplitlines s with
      | [] => [[c]]
      | h :: t => (c :: h) :: t

/-- `controller._get_conda_envs` applied to the outcome of the
`conda info --envs` call: on a non-zero exit code raise
`OSError(returncode, stderr)`; otherwise parse lines `[2:-1]` into
(name, prefix) pairs, with the name empty for single-word lines. -/
def get_conda_envs (res : ProcResult) :
    Except (Int × PyStr) (List (PyStr × PyStr)) :=
  if res.returncode ≠ 0 then Except.error (res.returncode, res.stderr)
  else Except.ok (((pySplitlines res.stdout).drop 2).dropLast.map (fun env =>
    (if (pySplit env).length > 1 then (pySplit env).headD [] else [],
     (pySplit env).getLastD [])))

/-- `controller._get_conda_packages` applied to the outcome of the
`conda list -n env` call: on a non-zero exit code raise
`OSError(returncode, stderr)`; otherwise parse lines `[3:]` into
(package, version) pairs. -/
def get_conda_packages (res : ProcResult) :
    Except (Int × PyStr) (List (PyStr × PyStr)) :=
  if res.returncode ≠ 0 then Except.error (res.returncode, res.stderr)
  else Except.ok (((pySplitlines res.stdout).drop 3).map (fun i =>
    ((pySplit i).headD [], (pySplit i).getD 1 [])))

/-- C8: whenever a registry query exits with a non-zero status, both
query wrappers raise an error carrying the exit code and the stderr
text unmodified, and produce no parsed table. -/
theorem registry_query_failure (res : ProcResult) (h : res.returncode ≠ 0) :
    get_conda_envs res = Except.error (res.returncode, res.stderr) ∧
    get_conda_packages res = Except.error (res.returncode, res.stderr) ∧
    (∀ v, get_conda_envs res ≠ Except.ok v) ∧
    (∀ v, get_conda_packages res ≠ Except.ok v) := by
  refine ⟨?_, ?_, ?_, ?_⟩ <;>
    simp [get_conda_envs, get_conda_packages, h]

/-- A failed registry query outcome. -/
def resW : ProcResult := { returncode := 1, stdout := [], stderr := "boom".data }

/-- Witness for C8 on the concrete failed query. -/
theorem registry_query_failure_witness :
    resW.returncode ≠ 0 ∧
    get_conda_envs resW = Except.error (resW.returncode, resW.stderr) :=
  ⟨by decide, (registry_query_failure resW (by decide)).1⟩

/-! ## Claim C3: resolution without a privileged environment -/

/-- All (prefix, version) candidates contributed for tool `t` by the
environment sequence, in processing order. -/
def candidatesFor (es : List (PyStr × PyStr))
    (pkgsOf : PyStr → List (PyStr × List Nat)) (t : PyStr) :
    List (PyStr × List Nat) :=
  es.flatMap (fun e =>
    if e.1 = [] then []
    else (pkgsOf e.1).filterMap (fun p =>
      if p.1 = t ∧ p.1 ∈ BINARIES then some (e.2, p.2) else none))

/-- One resolution step on the running pick, with no privileged
environment: keep the current pick only when its version is strictly
greater than the candidate's. -/
def pick1 (cur : Option (PyStr × List Nat)) (c : PyStr × List Nat) :
    Option (PyStr × List Nat) :=
  match cur with
  | none => some c
  | some pv => if vlt (vparse c.2) (vparse pv.2) then some pv else some c

def pickFold (cur : Option (PyStr × List Nat))
    (cs : List (PyStr × List Nat)) : Option (PyStr × List Nat) :=
  cs.foldl pick1 cur

theorem pkgs_fold_lookup (n pref t : PyStr)
    (hn : startswith n "nanoamp_".data = false)
    (ps : List (PyStr × List Nat)) :
    ∀ (pie : List PyStr) (prefs : List (PyStr × PyStr × List Nat)),
      alookup (ps.foldl (pkgStep n pref) (pie, prefs)).2 t =
        pickFold (alookup prefs t)
          (ps.filterMap (fun p =>
            if p.1 = t ∧ p.1 ∈ BINARIES then some (pref, p.2) else none)) := by
  induction ps with
  | nil =>
    intro pie prefs
    rfl
  | cons p ps ih =>
    obtain ⟨p1, pver⟩ := p
    intro pie prefs
    simp only [List.foldl_cons, List.filterMap_cons]
    by_cases hb : p1 ∈ BINARIES
    · by_cases ht : p1 = t
      · subst ht
        rw [if_pos ⟨rfl, hb⟩]
        cases halk : alookup prefs p1 with
        | none =>
          have hstep : pkgStep n pref (pie, prefs) (p1, pver) =
              (pie ++ [p1], aset prefs p1 (pref, pver)) := by
            simp [pkgStep, hb, halk, hn]
          rw [hstep, ih]
          simp [pickFold, pick1, halk, alookup_aset_self]
        | some pv =>
          by_cases hv : vlt (vparse pver) (vparse pv.2) = true
          · have hstep : pkgStep n pref (pie, prefs) (p1, pver) =
                (pie ++ [p1], prefs) := by
              simp [pkgStep, hb, halk, hn, hv]
            rw [hstep, ih]
            simp [pickFold, pick1, halk, hv]
          · have hstep : pkgStep n pref (pie, prefs) (p1, pver) =
                (pie ++ [p1], aset prefs p1 (pref, pver)) := by
              simp [pkgStep, hb, halk, hn, hv]
            rw [hstep, ih]
            simp [pickFold, pick1, halk, hv, alookup_aset_self]
      · rw [if_neg (fun hc => ht hc.1)]
        have hlk : ∀ st2, pkgStep n pref (pie, prefs) (p1, pver) = st2 →
            alookup st2.2 t = alookup prefs t := by
          intro st2 hst
          subst hst
          simp only [pkgStep, hb, if_pos]
          by_cases hov :
              ((match alookup prefs p1 with
                | some pv => !(vlt (vparse pver) (vparse pv.2))
                | none => true) || startswith n "nanoamp_".data) = true
          · simp only [hov, if_pos]
            exact alookup_aset_ne prefs p1 t (pref, pver) (fun he => ht he.symm)
          · simp only [Bool.not_eq_true] at hov
            simp [hov]
        have := hlk _ rfl
        cases hst : pkgStep n pref (pie, prefs) (p1, pver) with
        | mk st1 st2 =>
          rw [hst] at this
          rw [ih st1 st2, this]
    · rw [if_neg (fun hc => hb hc.2)]
      have hstep : pkgStep n pref (pie, prefs) (p1, pver) = (pie, prefs) := by
        simp [pkgStep, hb]
      rw [hstep, ih]

theorem envs_fold_lookup (pkgsOf : PyStr → List (PyStr × List Nat)) (t : PyStr)
    (es : List (PyStr × PyStr))
    (hpriv : ∀ e ∈ es, startswith e.1 "nanoamp_".data = false) :
    ∀ acc, alookup (es.foldl (envStep pkgsOf) acc).2 t =
      pickFold (alookup acc.2 t) (candidatesFor es pkgsOf t) := by
  induction es with
  | nil =>
    intro acc
    rfl
  | cons e es ih =>
    intro acc
    have he : startswith e.1 "nanoamp_".data = false :=
      hpriv e (List.mem_cons_self _ _)
    have hes : ∀ x ∈ es, startswith x.1 "nanoamp_".data = false :=
      fun x hx => hpriv x (List.mem_cons_of_mem _ hx)
    simp only [List.foldl_cons, candidatesFor, List.flatMap_cons]
    by_cases hname : e.1 = []
    · rw [if_pos hname]
      have hstep : envStep pkgsOf acc e = acc := by
        simp [envStep, hname]
      rw [hstep]
      simpa [candidatesFor] using ih hes acc
    · rw [if_neg hname]
      have hstep : (envStep pkgsOf acc e).2 =
          ((pkgsOf e.1).foldl (pkgStep e.1 e.2) ([], acc.2)).2 := by
        simp [envStep, hname]
      have hlk : alookup (envStep pkgsOf acc e).2 t =
          pickFold (alookup acc.2 t)
            ((pkgsOf e.1).filterMap (fun p =>
              if p.1 = t ∧ p.1 ∈ BINARIES then some (e.2, p.2) else none)) := by
        rw [hstep]
        exact pkgs_fold_lookup e.1 e.2 t he (pkgsOf e.1) [] acc.2
      have hih := ih hes (envStep pkgsOf acc e)
      rw [hlk] at hih
      rw [hih]
      simp only [pickFold, List.foldl_append]
      rfl

/-- The resolved pick of `get_conda_setup` at any tool is exactly the
no-privilege resolution fold over that tool's candidate list. -/
theorem resolver_lookup (es : List (PyStr × PyStr))
    (pkgsOf : PyStr → List (PyStr × List Nat)) (t : PyStr)
    (hpriv : ∀ e ∈ es, startswith e.1 "nanoamp_".data = false) :
    alookup (get_conda_setup es pkgsOf).2 t =
      pickFold none (candidatesFor es pkgsOf t) :=
  envs_fold_lookup pkgsOf t es hpriv ([], [])

theorem pickFold_some (cs : List (PyStr × List Nat)) :
    ∀ pv, ∃ w, pickFold (some pv) cs = some w := by
  induction cs with
  | nil => intro pv; exact ⟨pv, rfl⟩
  | cons c cs ih =>
    intro pv
    by_cases hv : vlt (vparse c.2) (vparse pv.2) = true
    · simpa [pickFold, List.foldl_cons, pick1, hv] using ih pv
    · simpa [pickFold, List.foldl_cons, pick1, hv] using ih c

theorem pickFold_none_iff (cs : List (PyStr × List Nat)) :
    pickFold none cs = none ↔ cs = [] := by
  cases cs with
  | nil => simp [pickFold]
  | cons c cs =>
    obtain ⟨w, hw⟩ := pickFold_some cs c
    simp only [pickFold, List.foldl_cons, pick1] at hw ⊢
    simp [hw]

theorem pickFold_spec (cs : List (PyStr × List Nat)) :
    ∀ p v, pickFold none cs = some (p, v) →
      (p, v) ∈ cs ∧
      (∀ c ∈ cs, vlt (vparse v) (vparse c.2) = false) ∧
      (cs.filter (fun c => vparse c.2 = vparse v)).getLast? = some (p, v) := by
  induction cs using List.reverseRecOn with
  | nil =>
    intro p v h
    simp [pickFold] at h
  | append_singleton cs c ih =>
    intro p v h
    rw [pickFold, List.foldl_append] at h
    cases h0 : pickFold none cs with
    | none =>
      have hcs : cs = [] := (pickFold_none_iff cs).mp h0
      subst hcs
      simp only [pickFold] at h0
      simp only [List.foldl_nil, List.foldl_cons, pick1,
        Option.some.injEq] at h
      subst h
      refine ⟨by simp, ?_, ?_⟩
      · intro x hx
        simp only [List.nil_append, List.mem_singleton] at hx
        subst hx
        exact vlt_irrefl _
      · simp [List.filter_cons]
    | some pv =>
      obtain ⟨p0, v0⟩ := pv
      obtain ⟨hmem0, hmax0, hlast0⟩ := ih p0 v0 h0
      rw [show pickFold none cs = cs.foldl pick1 none from rfl] at h0
      rw [h0] at h
      simp only [List.foldl_cons, List.foldl_nil, pick1] at h
      by_cases hv : vlt (vparse c.2) (vparse v0) = true
      · rw [if_pos hv] at h
        simp only [Option.some.injEq, Prod.mk.injEq] at h
        obtain ⟨rfl, rfl⟩ := h
        refine ⟨List.mem_append_left _ hmem0, ?_, ?_⟩
        · intro x hx
          rcases List.mem_append.mp hx with hx | hx
          · exact hmax0 x hx
          · simp only [List.mem_singleton] at hx
            subst hx
            exact vlt_asymm _ _ hv
        · rw [List.filter_append]
          have hne : ¬ (vparse c.2 = vparse v0) := by
            intro he
            rw [he] at hv
            exact absurd hv (by simp [vlt_irrefl])
          have hd : (decide (vparse c.2 = vparse v0)) = false := by
            simp [hne]
          simp only [List.filter_cons, List.filter_nil, hd,
            Bool.false_eq_true, if_false, List.append_nil]
          exact hlast0
      · rw [if_neg hv] at h
        simp only [Option.some.injEq] at h
        subst h
        simp only [Bool.not_eq_true] at hv
        refine ⟨List.mem_append_right _ (by simp), ?_, ?_⟩
        · intro x hx
          rcases List.mem_append.mp hx with hx | hx
          · by_cases hvv : vlt (vparse v0) (vparse (p, v).2) = true
            · cases hq : vlt (vparse (p, v).2) (vparse x.2) with
              | false => rfl
              | true =>
                have htr := vlt_trans _ _ _ hvv hq
                rw [hmax0 x hx] at htr
                exact absurd htr (by simp)
            · have heq : vparse v0 = vparse (p, v).2 :=
                vlt_conn _ _ (by simpa using hvv) hv
              rw [← heq]
              exact hmax0 x hx
          · simp only [List.mem_singleton] at hx
            subst hx
            exact vlt_irrefl _
        · rw [List.filter_append]
          simp [List.filter_cons]

set_option maxHeartbeats 1000000 in
/-- C3 as amended: with no privileged environment present, the
resolved pick for a tool exists iff the tool has candidates, the
pick's version is not strictly below any candidate's version, and
among the candidates carrying a version equal to the pick's the pick
is the last one encountered in enumeration order (the code overwrites
on equal versions, so last — not first — wins). -/
theorem resolver_highest_version (es : List (PyStr × PyStr))
    (pkgsOf : PyStr → List (PyStr × List Nat)) (t : PyStr)
    (hpriv : ∀ e ∈ es, startswith e.1 "nanoamp_".data = false) :
    (alookup (get_conda_setup es pkgsOf).2 t = none ↔
       candidatesFor es pkgsOf t = []) ∧
    (∀ p v, alookup (get_conda_setup es pkgsOf).2 t = some (p, v) →
       (p, v) ∈ candidatesFor es pkgsOf t ∧
       (∀ c ∈ candidatesFor es pkgsOf t,
         vlt (vparse v) (vparse c.2) = false) ∧
       ((candidatesFor es pkgsOf t).filter
         (fun c => vparse c.2 = vparse v)).getLast? = some (p, v)) := by
  have hres := resolver_lookup es pkgsOf t hpriv
  constructor
  · rw [hres]
    exact pickFold_none_iff _
  · intro p v h
    rw [hres] at h
    exact pickFold_spec _ p v h

/-- The two equal-version environments of the C3 counterexample. -/
def envF1 : PyStr × PyStr := ("envc".data, "/q1".data)

def envF2 : PyStr × PyStr := ("envd".data, "/q2".data)

/-- Both environments carry flye 1.0.0. -/
def pkgsOfEq : PyStr → List (PyStr × List Nat) := fun n =>
  if n = "envc".data then [("flye".data, [1, 0, 0])]
  else if n = "envd".data then [("flye".data, [1, 0, 0])]
  else []

/-- C3 counterexample: with two non-privileged environments carrying
equal flye versions, the resolved prefix is the second environment's,
not the first encountered as the claim states. -/
theorem equal_versions_keep_last_counterexample :
    alookup (get_conda_setup [envF1, envF2] pkgsOfEq).2 "flye".data =
      some ("/q2".data, [1, 0, 0]) ∧
    alookup (get_conda_setup [envF1, envF2] pkgsOfEq).2 "flye".data ≠
      some ("/q1".data, [1, 0, 0]) := by
  constructor
  · decide
  · decide

/-- Witness for C3 on the concrete equal-version environments. -/
theorem resolver_highest_version_witness :
    (∀ e ∈ [envF1, envF2], startswith e.1 "nanoamp_".data = false) ∧
    (∀ p v,
      alookup (get_conda_setup [envF1, envF2] pkgsOfEq).2 "flye".data =
        some (p, v) →
      (p, v) ∈ candidatesFor [envF1, envF2] pkgsOfEq "flye".data ∧
      (∀ c ∈ candidatesFor [envF1, envF2] pkgsOfEq "flye".data,
        vlt (vparse v) (vparse c.2) = false) ∧
      ((candidatesFor [envF1, envF2] pkgsOfEq "flye".data).filter
        (fun c => vparse c.2 = vparse v)).getLast? = some (p, v)) :=
  ⟨by decide,
   (resolver_highest_version [envF1, envF2] pkgsOfEq "flye".data (by decide)).2⟩

/-! ## Claim C9: the model-identifier codec

The live code has no executable decoder: `model.py` keeps the parsing
only in comments and `filter_models` depends on a missing
`get_model_df`. The decoder below is modelled from the spec (§4.4). -/

/-- Python `ident.split("_")`. -/
def splitOnUnd : PyStr → List PyStr
  | [] => [[]]
  | c :: rest =>
    if c = '_' then [] :: splitOnUnd rest
    else
      match splitOnUnd rest with
      | h :: t => (c :: h) :: t
      | [] => [[c]]

/-- Python `"_".join(fields)`. -/
def joinUnd : List PyStr → PyStr
  | [] => []
  | [p] => p
  | p :: ps => p ++ '_' :: joinUnd ps

/-- Modelled from the spec: terminal-field handling of the decoder
(missing from the live code). If the last field begins with the
version-prefix character `g` it is the version; otherwise the last
field is a training-flavor suffix and the second-to-last field is the
version. The variant is every field strictly before the version
field(s), re-joined. Returns (variant, version). -/
def decodeTail (rest2 : List PyStr) : Option (PyStr × PyStr) :=
  match rest2.getLast? with
  | none => none
  | some lastF =>
    if startswith lastF "g".data then some (joinUnd rest2.dropLast, lastF)
    else
      match rest2.dropLast.getLast? with
      | none => none
      | some verF => some (joinUnd rest2.dropLast.dropLast, verF)

/-- Modelled from the spec: the identifier decoder that the live code
is missing (`model.py` keeps it only in comments). Field 0 is the
pore; field 1 is the device designator only if it matches one of the
two known device tokens (`model.DEVICES` values `min`, `prom`);
the terminal fields are handled by `decodeTail`. Returns
(pore, device?, variant, basecaller-version); `none` for identifiers
that do not decompose. -/
def decode (ident : PyStr) : Option (PyStr × Option PyStr × PyStr × PyStr) :=
  match splitOnUnd ident with
  | [] => none
  | pore :: rest =>
    let dr : Option PyStr × List PyStr :=
      match rest with
      | f1 :: tl =>
        if f1 = "min".data ∨ f1 = "prom".data then (some f1, tl) else (none, rest)
      | [] => (none, [])
    match decodeTail dr.2 with
    | none => none
    | some (variant, version) => some (pore, dr.1, variant, version)

theorem splitOnUnd_no_und (p : PyStr) (hp : '_' ∉ p) : splitOnUnd p = [p] := by
  induction p with
  | nil => rfl
  | cons c rest ih =>
    have hc : ¬ c = '_' := fun h => hp (h ▸ List.mem_cons_self c rest)
    have hrest : '_' ∉ rest := fun h => hp (List.mem_cons_of_mem _ h)
    simp [splitOnUnd, hc, ih hrest]

theorem splitOnUnd_append (p : PyStr) (r : PyStr) (hp : '_' ∉ p) :
    splitOnUnd (p ++ '_' :: r) = p :: splitOnUnd r := by
  induction p with
  | nil => simp [splitOnUnd]
  | cons c rest ih =>
    have hc : ¬ c = '_' := fun h => hp (h ▸ List.mem_cons_self c rest)
    have hrest : '_' ∉ rest := fun h => hp (List.mem_cons_of_mem _ h)
    simp [splitOnUnd, hc, ih hrest]

theorem splitOnUnd_join (ps : List PyStr) (hne : ps ≠ [])
    (hp : ∀ p ∈ ps, '_' ∉ p) : splitOnUnd (joinUnd ps) = ps := by
  induction ps with
  | nil => cases hne rfl
  | cons p ps ih =>
    cases ps with
    | nil => exact splitOnUnd_no_und p (hp p (by simp))
    | cons q qs =>
      have hj : joinUnd (p :: q :: qs) = p ++ '_' :: joinUnd (q :: qs) := rfl
      rw [hj, splitOnUnd_append p _ (hp p (by simp)),
        ih (by simp) (fun x hx => hp x (List.mem_cons_of_mem _ hx))]

theorem decodeTail_eval (var : List PyStr) (ver : PyStr) (suf : Option PyStr)
    (hver : startswith ver "g".data = true)
    (hsuf : ∀ s, suf = some s → startswith s "g".data = false) :
    decodeTail (var ++ ver :: suf.toList) = some (joinUnd var, ver) := by
  cases suf with
  | none =>
    have h1 : var ++ ver :: (none : Option PyStr).toList = var ++ [ver] := by
      simp [Option.toList]
    rw [h1]
    simp [decodeTail, List.getLast?_concat, hver, List.dropLast_concat]
  | some s =>
    have hs := hsuf s rfl
    have h1 : var ++ ver :: (some s).toList = (var ++ [ver]) ++ [s] := by
      simp [Option.toList]
    rw [h1]
    simp [decodeTail, List.getLast?_concat, hs, hver, List.dropLast_concat]

theorem gver_not_device (ver : PyStr) (h : startswith ver "g".data = true) :
    ¬ (ver = "min".data ∨ ver = "prom".data) := by
  rintro (rfl | rfl) <;> exact absurd h (by decide)

/-- C9: for every well-formed identifier in each of the four structural
cases (device present/absent x version-suffix present/absent) decoding
recovers the pore, device, variant and basecaller-version fields
exactly. -/
theorem decode_roundtrip (pore : PyStr) (dev : Option PyStr)
    (var : List PyStr) (ver : PyStr) (suf : Option PyStr)
    (hpore : '_' ∉ pore)
    (hdev : dev = none ∨ dev = some "min".data ∨ dev = some "prom".data)
    (hvar : ∀ f ∈ var, '_' ∉ f)
    (hvarhead : dev = none → ∀ f, var.head? = some f →
      ¬ (f = "min".data ∨ f = "prom".data))
    (hver : startswith ver "g".data = true) (hveru : '_' ∉ ver)
    (hsuf : ∀ s, suf = some s →
      startswith s "g".data = false ∧ '_' ∉ s) :
    decode (joinUnd ([pore] ++ dev.toList ++ var ++ [ver] ++ suf.toList)) =
      some (pore, dev, joinUnd var, ver) := by
  have hsufg : ∀ s, suf = some s → startswith s "g".data = false :=
    fun s hs => (hsuf s hs).1
  have hparts :
      ∀ x ∈ [pore] ++ dev.toList ++ var ++ [ver] ++ suf.toList, '_' ∉ x := by
    intro x hx
    simp only [List.mem_append, List.mem_singleton] at hx
    rcases hx with ((((rfl | hx) | hx) | rfl) | hx)
    · exact hpore
    · rcases hdev with rfl | rfl | rfl
      · simp [Option.toList] at hx
      · simp only [Option.toList, List.mem_singleton] at hx
        subst hx
        decide
      · simp only [Option.toList, List.mem_singleton] at hx
        subst hx
        decide
    · exact hvar x hx
    · exact hveru
    · cases suf with
      | none => simp [Option.toList] at hx
      | some s =>
        simp only [Option.toList, List.mem_singleton] at hx
        rw [hx]
        exact (hsuf s rfl).2
  have hfields :
      splitOnUnd (joinUnd ([pore] ++ dev.toList ++ var ++ [ver] ++ suf.toList)) =
        [pore] ++ dev.toList ++ var ++ [ver] ++ suf.toList :=
    splitOnUnd_join _ (by simp) hparts
  rcases hdev with rfl | rfl | rfl
  · -- no device
    cases var with
    | nil =>
      have hL : [pore] ++ (none : Option PyStr).toList ++ ([] : List PyStr)
          ++ [ver] ++ suf.toList = pore :: (ver :: suf.toList) := by
        simp [Option.toList]
      have hnd := gver_not_device ver hver
      unfold decode
      rw [hfields, hL]
      dsimp only
      rw [if_neg hnd]
      dsimp only
      have := decodeTail_eval [] ver suf hver hsufg
      simp only [List.nil_append] at this
      rw [this]
    | cons f var' =>
      have hL : [pore] ++ (none : Option PyStr).toList ++ (f :: var')
          ++ [ver] ++ suf.toList
          = pore :: (f :: (var' ++ ver :: suf.toList)) := by
        simp [Option.toList]
      have hnd := hvarhead rfl f rfl
      unfold decode
      rw [hfields, hL]
      dsimp only
      rw [if_neg hnd]
      dsimp only
      have := decodeTail_eval (f :: var') ver suf hver hsufg
      simp only [List.cons_append] at this
      rw [this]
  · -- device "min"
    have hL : [pore] ++ (some "min".data).toList ++ var ++ [ver] ++ suf.toList
        = pore :: ("min".data :: (var ++ ver :: suf.toList)) := by
      simp [Option.toList]
    unfold decode
    rw [hfields, hL]
    dsimp only
    rw [if_pos (Or.inl rfl)]
    dsimp only
    rw [decodeTail_eval var ver suf hver hsufg]
  · -- device "prom"
    have hL : [pore] ++ (some "prom".data).toList ++ var ++ [ver] ++ suf.toList
        = pore :: ("prom".data :: (var ++ ver :: suf.toList)) := by
      simp [Option.toList]
    unfold decode
    rw [hfields, hL]
    dsimp only
    rw [if_pos (Or.inr rfl)]
    dsimp only
    rw [decodeTail_eval var ver suf hver hsufg]

/-- Witness for C9: the spec's two example identifiers, one with a
device and none of them with a training-flavor suffix after the
version, decode to the expected fields. -/
theorem decode_roundtrip_witness :
    decode "r941_min_sup_g507".data =
      some ("r941".data, some "min".data, "sup".data, "g507".data) ∧
    decode "r104_e81_sup_variant_g5015".data =
      some ("r104".data, none, "e81_sup_variant".data, "g5015".data) := by
  constructor
  · have h := decode_roundtrip "r941".data (some "min".data) ["sup".data]
      "g507".data none (by decide) (by simp) (by decide)
      (by intro h; exact Option.noConfusion h) (by decide) (by decide)
      (by intro s hs; exact Option.noConfusion hs)
    exact h
  · have h := decode_roundtrip "r104".data none
      ["e81".data, "sup".data, "variant".data]
      "g5015".data none (by decide) (by simp) (by decide)
      (by
        intro _ f hf
        rw [show f = "e81".data from (by simpa using hf : "e81".data = f).symm]
        decide)
      (by decide) (by decide)
      (by intro s hs; exact Option.noConfusion hs)
    exact h

/-! ## Claim C10: `filter_models` and the missing `get_model_df` -/

/-- The names defined at top level of the `model` module (its attribute
table); `get_model_df` is not among them. -/
def model_attrs : List String :=
  ["os", "subprocess", "BINARIES", "PREFIXES", "MODELS", "PORES", "GUPPYVERS",
   "DEVICES", "VARIANTS", "get_conda_ymls", "get_prefix", "get_flow_cells",
   "get_devices", "get_guppy_versions", "get_models", "_parse_models",
   "get_assemblers"]

/-- A Python exception raised during attribute access. -/
inductive PyExc where
  | attributeError (nm : String)
deriving DecidableEq

/-- Attribute access `model.<nm>`: `AttributeError` when the module
does not define the name. -/
def module_getattr (nm : String) : Except PyExc Unit :=
  if nm ∈ model_attrs then Except.ok () else Except.error (PyExc.attributeError nm)

/-- `controller.filter_models`: the first statement evaluates
`model.get_model_df()`; afterwards the query is built from the
non-null criteria in the fixed field order. The pandas query string is
represented as the list of (field, value) equality conjuncts. -/
def filter_models (device cell guppy variant : Option String) :
    Except PyExc (List (String × String)) := do
  let _ ← module_getattr "get_model_df"
  let query :=
    (match device with | some d => [("device", d)] | none => [])
    ++ (match cell with | some c => [("cell", c)] | none => [])
    ++ (match guppy with | some g => [("guppy", g)] | none => [])
    ++ (match variant with | some v => [("variant", v)] | none => [])
  pure query

/-- C10: every call to `filter_models`, for any combination of
criteria including the all-wildcard one, fails with an
`AttributeError` for `get_model_df` before any filtering occurs. -/
theorem filter_models_attribute_error (device cell guppy variant : Option String) :
    filter_models device cell guppy variant =
      Except.error (PyExc.attributeError "get_model_df") := by
  rfl
